import Mathlib

/-
Verification of the iroha subscription core against its design description.

The embedding translates, from the C++ sources:
  * `src/irohad/subscription/subscription_engine.hpp` — `SubscriptionEngine`:
    the key → record-list registry with `subscribe`, `unsubscribe`, `size`
    and `notify`;
  * `src/irohad/subscription/sync_dispatcher_impl.hpp` — `SyncDispatcher`:
    `dispose` with an empty body, `add`/`addDelayed` executing the task inline;
  * `src/unnamed/part_000` (subscription.hpp) — `SubscriberCreator::create`.

Modelling conventions.  Event keys, thread ids (TIDs), set ids and subscriber
identities are `Nat`.  A `std::weak_ptr<Subscriber>` is modelled by the
subscriber's identity together with an environment `env : Nat → Bool` telling
which subscribers are currently alive; `wsub.lock()` succeeds exactly when
`env` holds.  The `std::unordered_map` is an association list with unique keys
in every reachable state; a `std::list` of records is a `List Record`, and the
stable list iterator handed out by `subscribe` is modelled by a fresh `Nat`
handle drawn from a per-engine counter (iterator identity = node identity).
`std::list::erase` on an iterator that no longer addresses a node of the list
is undefined behavior; the model returns `none` (an `Option` failure) in
exactly that situation.  Payloads are a type parameter `α`; the payload tuple
captured by a queued task is a value of `α`.
-/

namespace Iroha

/-- One subscriber record stored in the engine's per-key list: the tuple
`(Tid, SubscriptionSetId, SubscriberWeakPtr)` of `SubscribersContainer`,
plus the stable identity of the list node (the iterator used as handle). -/
structure Record where
  tid : Nat
  setId : Nat
  wsub : Nat
  handle : Nat
deriving DecidableEq

/-- The state of a `SubscriptionEngine`: `subscribers_map_` as an association
list from event key to record list, plus the counter producing fresh node
identities for `subscribe`. -/
structure EngineState where
  map : List (Nat × List Record)
  nextHandle : Nat
deriving DecidableEq

/-- A freshly constructed engine: empty `subscribers_map_`. -/
def emptyEngine : EngineState := ⟨[], 0⟩

/-- `subscribers_map_.find(key)`: the record list stored under `key`, when
the key is present. -/
def findList : List (Nat × List Record) → Nat → Option (List Record)
  | [], _ => none
  | (k, l) :: rest, key => if k = key then some l else findList rest key

/-- The record list under `key`, reading an absent key as the empty list. -/
def lookupList (st : EngineState) (key : Nat) : List Record :=
  (findList st.map key).getD []

/-- `subscribers_map_[key]` followed by `emplace` at `end()`: append the
record to the list under `key`, default-constructing the list if absent. -/
def mapInsert : List (Nat × List Record) → Nat → Record → List (Nat × List Record)
  | [], key, r => [(key, [r])]
  | (k, l) :: rest, key, r =>
    if k = key then (k, l ++ [r]) :: rest else (k, l) :: mapInsert rest key r

/-- Replace the list stored under `key` (the key is already present). -/
def mapUpdate : List (Nat × List Record) → Nat → List Record → List (Nat × List Record)
  | [], _, _ => []
  | (k, l) :: rest, key, l2 =>
    if k = key then (k, l2) :: rest else (k, l) :: mapUpdate rest key l2

/-- `subscribers_map_.erase(it)`: drop the entry for `key`. -/
def mapErase : List (Nat × List Record) → Nat → List (Nat × List Record)
  | [], _ => []
  | (k, l) :: rest, key =>
    if k = key then rest else (k, l) :: mapErase rest key

/-- `SubscriptionEngine::subscribe<kTid>(set_id, key, ptr)`: under the
exclusive lock, append `(kTid, set_id, ptr)` to the list for `key` and return
the iterator to the new node (here: the fresh handle). -/
def subscribe (st : EngineState) (tid setId key sub : Nat) : EngineState × Nat :=
  (⟨mapInsert st.map key ⟨tid, setId, sub, st.nextHandle⟩, st.nextHandle + 1⟩,
   st.nextHandle)

/-- `std::list::erase(it_remove)`: remove the single node addressed by the
iterator.  When no node of the list carries the handle, the iterator is
invalid and the erase is undefined behavior, modelled as `none`. -/
def eraseHandle : List Record → Nat → Option (List Record)
  | [], _ => none
  | r :: rest, h =>
    if r.handle = h then some rest
    else
      match eraseHandle rest h with
      | some rest2 => some (r :: rest2)
      | none => none

/-- `SubscriptionEngine::unsubscribe(key, it_remove)`: under the exclusive
lock, look the key up; if absent, do nothing; otherwise erase the node
addressed by the iterator (UB — `none` — if the iterator is stale) and, if
the list became empty, erase the key entry from the map. -/
def unsubscribe (st : EngineState) (key h : Nat) : Option EngineState :=
  match findList st.map key with
  | none => some st
  | some l =>
    match eraseHandle l h with
    | none => none
    | some l2 =>
      some ⟨if l2.isEmpty then mapErase st.map key else mapUpdate st.map key l2,
            st.nextHandle⟩

/-- `SubscriptionEngine::size(key)`: the length of the list under `key`,
`0` when the key is absent. -/
def size (st : EngineState) (key : Nat) : Nat :=
  (lookupList st key).length

/-- The invariant claimed by the design description: every key present in
the subscribers map has a non-empty record list. -/
def noEmptyKeysB (st : EngineState) : Bool :=
  st.map.all (fun kv => !kv.2.isEmpty)

/-- The closure submitted to the dispatcher by `notify`: it captures the
weak reference `wsub`, the set id, the event key and the payload tuple made
from the arguments — not a strong reference. -/
structure Task (α : Type) where
  tid : Nat
  setId : Nat
  wsub : Nat
  key : Nat
  args : α
deriving DecidableEq

/-- The body of `notify`'s loop over the record list for `key`: a live record
(`wsub.lock()` succeeds) is kept and a task is submitted for it, in list
order; a dead record is erased in place.  Returns the surviving list and the
submitted tasks. -/
def notifyList (env : Nat → Bool) (key : Nat) (args : α) :
    List Record → List Record × List (Task α)
  | [] => ([], [])
  | r :: rest =>
    let p := notifyList env key args rest
    if env r.wsub then
      (r :: p.1, ⟨r.tid, r.setId, r.wsub, key, args⟩ :: p.2)
    else p

/-- `SubscriptionEngine::notify(key, args...)`: under the shared lock, if the
key is absent return at once; otherwise walk the record list, submitting one
task per live record and erasing dead records.  The key entry itself is never
erased here, even when its list becomes empty. -/
def notify (env : Nat → Bool) (st : EngineState) (key : Nat) (args : α) :
    EngineState × List (Task α) :=
  match findList st.map key with
  | none => (st, [])
  | some l =>
    let p := notifyList env key args l
    (⟨mapUpdate st.map key p.1, st.nextHandle⟩, p.2)

/-- An invocation `sub->on_notify(id, key, args...)` observed by a subscriber:
who was called and with which set id, event key and payload. -/
structure Delivery (α : Type) where
  sub : Nat
  setId : Nat
  key : Nat
  args : α
deriving DecidableEq

/-- Execution of a queued task inside its lane: re-upgrade the captured weak
reference under the liveness environment at execution time; on success invoke
`on_notify(id, key, args...)`, otherwise do nothing. -/
def runTask (env : Nat → Bool) (t : Task α) : Option (Delivery α) :=
  if env t.wsub then some ⟨t.wsub, t.setId, t.key, t.args⟩ else none

/-- A call on the `IDispatcher` interface: `dispose()`, `add(tid, task)` or
`addDelayed(tid, timeout_us, task)`. -/
inductive DispatcherOp (α : Type) where
  | dispose
  | add (tid : Nat) (task : Task α)
  | addDelayed (tid : Nat) (timeoutUs : Nat) (task : Task α)

/-- `SyncDispatcher`: `dispose()` has an empty body and records nothing;
`add` and `addDelayed` each execute their task inline on the caller's thread,
ignoring the tid and the timeout.  Given a sequence of interface calls, this
returns the tasks executed, in execution order. -/
def syncRun : List (DispatcherOp α) → List (Task α)
  | [] => []
  | DispatcherOp.dispose :: rest => syncRun rest
  | DispatcherOp.add _ t :: rest => t :: syncRun rest
  | DispatcherOp.addDelayed _ _ t :: rest => t :: syncRun rest

/-- `notify` run against a `SyncDispatcher`: each `dispatcher_->add` executes
the submitted task inline before `notify` returns, so the deliveries are the
tasks' executions under the same liveness environment.  Returns the new
engine state and the completed deliveries. -/
def notifySync (env : Nat → Bool) (st : EngineState) (key : Nat) (args : α) :
    EngineState × List (Delivery α) :=
  let p := notify env st key args
  (p.1, p.2.filterMap (runTask env))

/-- The state of a `SubscriptionManager`: its engines memoized by payload
signature.  Modelled from the spec: `subscription_manager.hpp` is not under
`src/`; per the design, `getEngine` creates an engine lazily on first request
and memoizes it, so repeated lookups return the same engine. -/
structure Manager where
  engines : List (Nat × EngineState)
deriving DecidableEq

/-- Association-list lookup among the manager's memoized engines. -/
def findEngine : List (Nat × EngineState) → Nat → Option EngineState
  | [], _ => none
  | (k, e) :: rest, sig => if k = sig then some e else findEngine rest sig

/-- Modelled from the spec: `SubscriptionManager::getEngine` (not under
`src/`) returns the engine memoized under the payload-type signature,
creating and storing a fresh one on first request. -/
def getEngine (m : Manager) (sig : Nat) : EngineState × Manager :=
  match findEngine m.engines sig with
  | some e => (e, m)
  | none => (emptyEngine, ⟨m.engines ++ [(sig, emptyEngine)]⟩)

/-- `SubscriberCreator::create<key, tid>(callback)` from `src/unnamed/part_000`:
construct a subscriber bound to `getSubscription()->getEngine<...>()`, install
the callback wrapper `(set_id, object, event_key, args...) {
assert(key == event_key); f(object, args...); }`, subscribe it under `key` on
lane `tid` with `set_id = 0`, and return the subscriber.  The wrapper's failed
assertion is modelled as `none`.  (`SubscriberImpl` is not under `src/`;
modelled from the spec, its `setCallback` installs the wrapper and its
`subscribe<tid>(set_id, key)` forwards to the bound engine's `subscribe`.)
Returns the installed callback, the engine state after the subscription, the
record handle, and the manager after the memoized lookup. -/
def SubscriberCreator.create {σ α : Type} (key tid : Nat) (f : σ → α → σ) (m : Manager)
    (sig sub : Nat) :
    (Nat → σ → Nat → α → Option σ) × EngineState × Nat × Manager :=
  let em := getEngine m sig
  let cb := fun (_setId : Nat) (obj : σ) (eventKey : Nat) (args : α) =>
    if eventKey = key then some (f obj args) else none
  let sh := subscribe em.1 tid 0 key sub
  (cb, sh.1, sh.2, em.2)

/-! ### Supporting lemmas about the association-list map -/

theorem findList_mapInsert_self (m : List (Nat × List Record)) (key : Nat) (r : Record) :
    findList (mapInsert m key r) key = some ((findList m key).getD [] ++ [r]) := by
  induction m with
  | nil => simp [mapInsert, findList]
  | cons kv rest ih =>
    obtain ⟨k, l⟩ := kv
    by_cases hk : k = key
    · subst hk
      simp [mapInsert, findList]
    · simp [mapInsert, findList, hk, ih]

theorem findList_mapUpdate_self (m : List (Nat × List Record)) (key : Nat)
    (l2 : List Record) (h : (findList m key).isSome) :
    findList (mapUpdate m key l2) key = some l2 := by
  induction m with
  | nil => simp [findList] at h
  | cons kv rest ih =>
    obtain ⟨k, l⟩ := kv
    by_cases hk : k = key
    · subst hk
      simp [mapUpdate, findList]
    · simp [findList, hk] at h
      simp [mapUpdate, findList, hk, ih h]

theorem findList_mapUpdate_ne (m : List (Nat × List Record)) (key k2 : Nat)
    (l2 : List Record) (h : k2 ≠ key) :
    findList (mapUpdate m key l2) k2 = findList m k2 := by
  induction m with
  | nil => simp [mapUpdate]
  | cons kv rest ih =>
    obtain ⟨k, l⟩ := kv
    by_cases hk : k = key
    · subst hk
      simp [mapUpdate, findList, Ne.symm h]
    · by_cases hk2 : k = k2
      · subst hk2
        simp [mapUpdate, findList, hk]
      · simp [mapUpdate, findList, hk, hk2, ih]

theorem findList_mapErase_ne (m : List (Nat × List Record)) (key k2 : Nat)
    (h : k2 ≠ key) :
    findList (mapErase m key) k2 = findList m k2 := by
  induction m with
  | nil => simp [mapErase]
  | cons kv rest ih =>
    obtain ⟨k, l⟩ := kv
    by_cases hk : k = key
    · subst hk
      simp [mapErase, findList, Ne.symm h]
    · by_cases hk2 : k = k2
      · subst hk2
        simp [mapErase, findList, hk]
      · simp [mapErase, findList, hk, hk2, ih]

theorem findList_eq_none_of_not_mem (m : List (Nat × List Record)) (key : Nat)
    (h : key ∉ m.map Prod.fst) :
    findList m key = none := by
  induction m with
  | nil => simp [findList]
  | cons kv rest ih =>
    obtain ⟨k, l⟩ := kv
    simp only [List.map_cons, List.mem_cons, not_or] at h
    have hk : ¬k = key := fun he => h.1 he.symm
    simp [findList, hk, ih h.2]

theorem findList_mapErase_self (m : List (Nat × List Record)) (key : Nat)
    (hnd : (m.map Prod.fst).Nodup) :
    findList (mapErase m key) key = none := by
  induction m with
  | nil => simp [mapErase, findList]
  | cons kv rest ih =>
    obtain ⟨k, l⟩ := kv
    simp only [List.map_cons, List.nodup_cons] at hnd
    by_cases hk : k = key
    · subst hk
      simpa [mapErase] using findList_eq_none_of_not_mem rest k hnd.1
    · simp [mapErase, findList, hk, ih hnd.2]

theorem mem_mapErase (m : List (Nat × List Record)) (key : Nat)
    (kv : Nat × List Record) (h : kv ∈ mapErase m key) : kv ∈ m := by
  induction m with
  | nil => simp [mapErase] at h
  | cons kv2 rest ih =>
    obtain ⟨k, l⟩ := kv2
    by_cases hk : k = key
    · subst hk
      simp [mapErase] at h
      exact List.mem_cons_of_mem _ h
    · simp only [mapErase, hk, if_false, List.mem_cons] at h
      rcases h with h | h
      · exact h ▸ List.mem_cons_self _ _
      · exact List.mem_cons_of_mem _ (ih h)

theorem mem_mapUpdate (m : List (Nat × List Record)) (key : Nat)
    (l2 : List Record) (kv : Nat × List Record) (h : kv ∈ mapUpdate m key l2) :
    kv.2 = l2 ∨ kv ∈ m := by
  induction m with
  | nil => simp [mapUpdate] at h
  | cons kv2 rest ih =>
    obtain ⟨k, l⟩ := kv2
    by_cases hk : k = key
    · subst hk
      simp only [mapUpdate, if_pos rfl, if_true, eq_self_iff_true, ite_true,
        List.mem_cons] at h
      rcases h with h | h
      · exact Or.inl (by simp [h])
      · exact Or.inr (List.mem_cons_of_mem _ h)
    · simp only [mapUpdate, hk, if_false, List.mem_cons] at h
      rcases h with h | h
      · exact Or.inr (h ▸ List.mem_cons_self _ _)
      · rcases ih h with h2 | h2
        · exact Or.inl h2
        · exact Or.inr (List.mem_cons_of_mem _ h2)

/-! ### Supporting lemmas about record lists -/

theorem notifyList_fst (env : Nat → Bool) (key : Nat) (args : α) (l : List Record) :
    (notifyList env key args l).1 = l.filter (fun r => env r.wsub) := by
  induction l with
  | nil => simp [notifyList]
  | cons r rest ih =>
    by_cases hr : env r.wsub
    · simp [notifyList, List.filter_cons, hr, ih]
    · simp only [Bool.not_eq_true] at hr
      simp [notifyList, List.filter_cons, hr, ih]

theorem notifyList_snd (env : Nat → Bool) (key : Nat) (args : α) (l : List Record) :
    (notifyList env key args l).2 =
      (l.filter (fun r => env r.wsub)).map
        (fun r => Task.mk r.tid r.setId r.wsub key args) := by
  induction l with
  | nil => simp [notifyList]
  | cons r rest ih =>
    by_cases hr : env r.wsub
    · simp [notifyList, List.filter_cons, hr, ih]
    · simp only [Bool.not_eq_true] at hr
      simp [notifyList, List.filter_cons, hr, ih]

theorem findList_eq_some_of_ne_nil (st : EngineState) (key : Nat)
    (h : lookupList st key ≠ []) :
    findList st.map key = some (lookupList st key) := by
  cases hf : findList st.map key with
  | none => exact absurd (by simp [lookupList, hf]) h
  | some l => simp [lookupList, hf]

theorem eraseHandle_nodup (l : List Record) (h : Nat)
    (hnd : (l.map Record.handle).Nodup) (hmem : h ∈ l.map Record.handle) :
    eraseHandle l h = some (l.filter (fun r => r.handle ≠ h)) := by
  induction l with
  | nil => simp at hmem
  | cons r rest ih =>
    simp only [List.map_cons, List.nodup_cons] at hnd
    by_cases hr : r.handle = h
    · subst hr
      have hall : ∀ r2 ∈ rest, ¬r2.handle = r.handle :=
        fun r2 hr2 he => hnd.1 (he ▸ List.mem_map_of_mem Record.handle hr2)
      have h1 : eraseHandle (r :: rest) r.handle = some rest := by
        simp [eraseHandle]
      rw [h1, List.filter_cons_of_neg (by simp), Option.some.injEq]
      exact (List.filter_eq_self.mpr
        (fun r2 hr2 => by simpa using hall r2 hr2)).symm
    · have hmem2 : h ∈ rest.map Record.handle := by
        rcases List.mem_cons.mp hmem with he | hm
        · exact absurd he.symm hr
        · exact hm
      rw [List.filter_cons_of_pos (by simpa using hr)]
      simp only [eraseHandle, if_neg hr, ih hnd.2 hmem2]

theorem length_filter_ne_handle (l : List Record) (h : Nat)
    (hnd : (l.map Record.handle).Nodup) (hmem : h ∈ l.map Record.handle) :
    (l.filter (fun r => r.handle ≠ h)).length + 1 = l.length := by
  induction l with
  | nil => simp at hmem
  | cons r rest ih =>
    simp only [List.map_cons, List.nodup_cons] at hnd
    by_cases hr : r.handle = h
    · subst hr
      have hall : ∀ r2 ∈ rest, ¬r2.handle = r.handle :=
        fun r2 hr2 he => hnd.1 (he ▸ List.mem_map_of_mem Record.handle hr2)
      rw [List.filter_cons_of_neg (by simp),
        List.filter_eq_self.mpr (fun r2 hr2 => by simpa using hall r2 hr2)]
      simp
    · have hmem2 : h ∈ rest.map Record.handle := by
        rcases List.mem_cons.mp hmem with he | hm
        · exact absurd he.symm hr
        · exact hm
      rw [List.filter_cons_of_pos (by simpa using hr), List.length_cons,
        List.length_cons, ih hnd.2 hmem2]

theorem filterMap_runTask_of_alive (env : Nat → Bool) (key : Nat) (args : α)
    (l : List Record) (h : ∀ r ∈ l, env r.wsub = true) :
    ((l.map (fun r => Task.mk r.tid r.setId r.wsub key args)).filterMap
        (runTask env)) =
      l.map (fun r => Delivery.mk r.wsub r.setId key args) := by
  induction l with
  | nil => simp
  | cons r rest ih =>
    have hr := h r (List.mem_cons_self _ _)
    simp [runTask, hr, ih (fun r2 hr2 => h r2 (List.mem_cons_of_mem _ hr2))]

theorem syncRun_append (xs ys : List (DispatcherOp α)) :
    syncRun (xs ++ ys) = syncRun xs ++ syncRun ys := by
  induction xs with
  | nil => simp [syncRun]
  | cons op rest ih =>
    cases op <;> simp [syncRun, ih]

theorem notify_eq_of_found (env : Nat → Bool) (st : EngineState)
    (key : Nat) (args : α) (l : List Record) (hf : findList st.map key = some l) :
    notify env st key args =
      (⟨mapUpdate st.map key (l.filter (fun r => env r.wsub)), st.nextHandle⟩,
       (l.filter (fun r => env r.wsub)).map
         (fun r => Task.mk r.tid r.setId r.wsub key args)) := by
  unfold notify
  rw [hf]
  simp [notifyList_fst, notifyList_snd]

theorem notify_snd (env : Nat → Bool) (st : EngineState) (key : Nat) (args : α) :
    (notify env st key args).2 =
      ((lookupList st key).filter (fun r => env r.wsub)).map
        (fun r => Task.mk r.tid r.setId r.wsub key args) := by
  cases hf : findList st.map key with
  | none =>
    unfold notify
    rw [hf]
    simp [lookupList, hf]
  | some l =>
    rw [notify_eq_of_found env st key args l hf]
    simp [lookupList, hf]

theorem findEngine_append_self (xs : List (Nat × EngineState)) (sig : Nat)
    (e : EngineState) (h : findEngine xs sig = none) :
    findEngine (xs ++ [(sig, e)]) sig = some e := by
  induction xs with
  | nil => simp [findEngine]
  | cons kv rest ih =>
    obtain ⟨k, e2⟩ := kv
    by_cases hk : k = sig
    · simp [findEngine, hk] at h
    · simp only [findEngine, hk, if_false, ite_false, List.cons_append] at h ⊢
      exact ih h

/-! ### The claims -/

/-- C1.  No delivery after death: every task that `notify` submits to the
dispatcher captures only the weak reference to its subscriber; executing the
task under a liveness environment in which that subscriber is dead fails the
re-upgrade inside the lane and performs no `on_notify` invocation. -/
theorem notify_no_delivery_after_death {α : Type} (env envExec : Nat → Bool)
    (st : EngineState) (key : Nat) (args : α) (t : Task α)
    (ht : t ∈ (notify env st key args).2) (hdead : envExec t.wsub = false) :
    env t.wsub = true ∧ runTask envExec t = none := by
  constructor
  · rw [notify_snd] at ht
    simp only [List.mem_map] at ht
    obtain ⟨r, hr, rfl⟩ := ht
    exact (List.mem_filter.mp hr).2
  · unfold runTask
    simp [hdead]

/-- Witness for C1: one subscriber (id 5) under key 0 is alive when `notify`
runs and a task is enqueued for it; executing that task after the subscriber
died delivers nothing. -/
theorem notify_no_delivery_after_death_witness :
    Task.mk 0 1 5 0 (9 : Nat) ∈
      (notify (fun n => n == 5) (⟨[(0, [⟨0, 1, 5, 0⟩])], 1⟩ : EngineState)
        0 (9 : Nat)).2 ∧
    ((fun _ => false) : Nat → Bool) (Task.mk 0 1 5 0 (9 : Nat)).wsub = false ∧
    ((fun n => n == 5) : Nat → Bool) (Task.mk 0 1 5 0 (9 : Nat)).wsub = true ∧
    runTask (fun _ => false) (Task.mk 0 1 5 0 (9 : Nat)) = none :=
  ⟨by decide, by decide,
   (notify_no_delivery_after_death (fun n => n == 5) (fun _ => false)
     ⟨[(0, [⟨0, 1, 5, 0⟩])], 1⟩ 0 9 (Task.mk 0 1 5 0 9) (by decide) (by decide)).1,
   (notify_no_delivery_after_death (fun n => n == 5) (fun _ => false)
     ⟨[(0, [⟨0, 1, 5, 0⟩])], 1⟩ 0 9 (Task.mk 0 1 5 0 9) (by decide) (by decide)).2⟩

/-- C10.  Notify on an unknown key is a no-op: when the key has no entry in
the subscribers map, `notify` returns with the engine state unchanged and
submits no task to the dispatcher. -/
theorem notify_unknown_key {α : Type} (env : Nat → Bool) (st : EngineState)
    (key : Nat) (args : α) (hmiss : findList st.map key = none) :
    notify env st key args = (st, []) := by
  unfold notify
  rw [hmiss]

/-- Witness for C10: notifying key 3 on an engine whose only entry is key 0
changes nothing and submits nothing. -/
theorem notify_unknown_key_witness :
    findList (⟨[(0, [⟨0, 1, 5, 0⟩])], 1⟩ : EngineState).map 3 = none ∧
    notify (fun _ => true) (⟨[(0, [⟨0, 1, 5, 0⟩])], 1⟩ : EngineState) 3 (7 : Nat) =
      ((⟨[(0, [⟨0, 1, 5, 0⟩])], 1⟩ : EngineState), []) :=
  ⟨by decide,
   notify_unknown_key (fun _ => true) ⟨[(0, [⟨0, 1, 5, 0⟩])], 1⟩ 3 7 (by decide)⟩

/-- C4 counterexample: the `SyncDispatcher` variant executes a task submitted
by `add` or by `addDelayed` even after `dispose()` was called, refuting the
claim that for every dispatcher variant no task submitted after `dispose` is
ever executed. -/
theorem sync_dispatcher_runs_after_dispose :
    syncRun [DispatcherOp.dispose, DispatcherOp.add 0 (Task.mk 0 0 1 2 (3 : Nat))] =
      [Task.mk 0 0 1 2 (3 : Nat)] ∧
    syncRun [DispatcherOp.dispose,
        DispatcherOp.addDelayed 0 50 (Task.mk 0 0 1 2 (3 : Nat))] =
      [Task.mk 0 0 1 2 (3 : Nat)] :=
  ⟨rfl, rfl⟩

/-- C4 amended: `SyncDispatcher::dispose` has an empty body and records no
stopped state; `add` and `addDelayed` submitted after any operation sequence
ending in `dispose` still execute their task inline.  (The return-without-
running semantics belongs to the async pool dispatcher, which is a different
variant.) -/
theorem sync_dispatcher_dispose_noop {α : Type} (ops : List (DispatcherOp α))
    (tid d : Nat) (t : Task α) :
    syncRun (ops ++ [DispatcherOp.dispose, DispatcherOp.add tid t]) =
      syncRun ops ++ [t] ∧
    syncRun (ops ++ [DispatcherOp.dispose, DispatcherOp.addDelayed tid d t]) =
      syncRun ops ++ [t] := by
  constructor <;> rw [syncRun_append] <;> rfl

/-- C5.  Sync dispatcher inline execution: `add` and `addDelayed` execute
their task exactly once, on the caller's thread, before returning, with the
tid and the duration ignored; hence `notify` through the sync dispatcher has
completed exactly one delivery per live subscriber for the key — carrying the
payload — by the time it returns. -/
theorem sync_dispatcher_inline {α : Type} (tid tid2 d d2 : Nat) (t : Task α)
    (env : Nat → Bool) (st : EngineState) (key : Nat) (args : α) :
    syncRun [DispatcherOp.add tid t] = [t] ∧
    syncRun [DispatcherOp.addDelayed tid d t] = [t] ∧
    syncRun [DispatcherOp.add tid t] = syncRun [DispatcherOp.add tid2 t] ∧
    syncRun [DispatcherOp.addDelayed tid d t] =
      syncRun [DispatcherOp.addDelayed tid2 d2 t] ∧
    (notifySync env st key args).2 =
      ((lookupList st key).filter (fun r => env r.wsub)).map
        (fun r => Delivery.mk r.wsub r.setId key args) := by
  refine ⟨rfl, rfl, rfl, rfl, ?_⟩
  have h2 : (notifySync env st key args).2 =
      (notify env st key args).2.filterMap (runTask env) := rfl
  rw [h2, notify_snd]
  exact filterMap_runTask_of_alive env key args _
    (fun r hr => (List.mem_filter.mp hr).2)

/-- C2.  Lazy cleanup on notify: subscribe a subscriber `s` under `key`, then
let it die (its weak reference no longer upgrades) while every record already
under the key stays alive; a single subsequent `notify(key, args)` erases the
dead record, so `size key` returns to its pre-subscribe value, no surviving
record under the key references `s`, and no task is submitted on behalf of
`s`. -/
theorem notify_lazy_cleanup {α : Type} (env : Nat → Bool) (st : EngineState)
    (tid setId key s : Nat) (args : α)
    (hdead : env s = false)
    (halive : ∀ r ∈ lookupList st key, env r.wsub = true) :
    size (notify env (subscribe st tid setId key s).1 key args).1 key =
      size st key ∧
    (∀ r ∈ lookupList (notify env (subscribe st tid setId key s).1 key args).1 key,
      r.wsub ≠ s) ∧
    (∀ t ∈ (notify env (subscribe st tid setId key s).1 key args).2,
      t.wsub ≠ s) := by
  have hf1 : findList (subscribe st tid setId key s).1.map key =
      some (lookupList st key ++ [⟨tid, setId, s, st.nextHandle⟩]) :=
    findList_mapInsert_self st.map key _
  have hfilter : (lookupList st key ++
        [(⟨tid, setId, s, st.nextHandle⟩ : Record)]).filter
      (fun r => env r.wsub) = lookupList st key := by
    rw [List.filter_append,
      List.filter_eq_self.mpr (fun r hr => halive r hr)]
    simp [hdead]
  have hnot := notify_eq_of_found env (subscribe st tid setId key s).1 key args _ hf1
  rw [hfilter] at hnot
  have hfu : findList (mapUpdate (subscribe st tid setId key s).1.map key
      ((findList st.map key).getD [])) key =
      some ((findList st.map key).getD []) :=
    findList_mapUpdate_self _ _ _ (by simp [hf1])
  refine ⟨?_, ?_, ?_⟩
  · rw [hnot]
    simp [size, lookupList, hfu]
  · intro r hr heq
    rw [hnot] at hr
    simp only [lookupList, hfu, Option.getD_some] at hr
    have h3 : env r.wsub = true := halive r hr
    rw [heq, hdead] at h3
    exact Bool.false_ne_true h3
  · intro t ht
    rw [hnot] at ht
    simp only [List.mem_map] at ht
    obtain ⟨r, hr, rfl⟩ := ht
    intro heq
    have h4 : r.wsub = s := heq
    have h3 : env r.wsub = true := halive r hr
    rw [h4, hdead] at h3
    exact Bool.false_ne_true h3

/-- Witness for C2: an engine with one live subscriber (id 7) under key 0; a
second subscriber (id 5) subscribes and dies; after one `notify`, `size 0` is
back to 1. -/
theorem notify_lazy_cleanup_witness :
    ((fun n => n == 7) : Nat → Bool) 5 = false ∧
    size (notify (fun n => n == 7)
        (subscribe (⟨[(0, [⟨0, 0, 7, 0⟩])], 1⟩ : EngineState) 0 0 0 5).1
        0 (4 : Nat)).1 0 =
      size (⟨[(0, [⟨0, 0, 7, 0⟩])], 1⟩ : EngineState) 0 :=
  ⟨by decide,
   (notify_lazy_cleanup (fun n => n == 7) ⟨[(0, [⟨0, 0, 7, 0⟩])], 1⟩ 0 0 0 5
     (4 : Nat) (by decide) (by decide)).1⟩

/-- C8.  Payload fidelity and set-id echo: for every record `(tid, s, w)`
under `key` whose subscriber is alive, `notify(key, args)` submits the task
`(tid, s, w, key, args)`, and executing it while the subscriber is still
alive invokes `on_notify` with set id `s`, event key `key`, and the payload
`args`, structurally unchanged. -/
theorem notify_payload_fidelity {α : Type} (env : Nat → Bool) (st : EngineState)
    (key : Nat) (args : α) (r : Record)
    (hr : r ∈ lookupList st key) (halive : env r.wsub = true) :
    Task.mk r.tid r.setId r.wsub key args ∈ (notify env st key args).2 ∧
    runTask env (Task.mk r.tid r.setId r.wsub key args) =
      some (Delivery.mk r.wsub r.setId key args) := by
  constructor
  · rw [notify_snd]
    simp only [List.mem_map]
    exact ⟨r, List.mem_filter.mpr ⟨hr, halive⟩, rfl⟩
  · simp [runTask, halive]

/-- Witness for C8: the live subscriber (id 5, set id 2) under key 0 receives
the payload 9 with set id 2 and key 0. -/
theorem notify_payload_fidelity_witness :
    (⟨0, 2, 5, 0⟩ : Record) ∈
      lookupList (⟨[(0, [⟨0, 2, 5, 0⟩])], 1⟩ : EngineState) 0 ∧
    ((fun n => n == 5) : Nat → Bool) 5 = true ∧
    Task.mk 0 2 5 0 (9 : Nat) ∈
      (notify (fun n => n == 5) (⟨[(0, [⟨0, 2, 5, 0⟩])], 1⟩ : EngineState)
        0 (9 : Nat)).2 ∧
    runTask (fun n => n == 5) (Task.mk 0 2 5 0 (9 : Nat)) =
      some (Delivery.mk 5 2 0 (9 : Nat)) :=
  ⟨by decide, by decide,
   (notify_payload_fidelity (fun n => n == 5) ⟨[(0, [⟨0, 2, 5, 0⟩])], 1⟩ 0 9
     ⟨0, 2, 5, 0⟩ (by decide) (by decide)).1,
   (notify_payload_fidelity (fun n => n == 5) ⟨[(0, [⟨0, 2, 5, 0⟩])], 1⟩ 0 9
     ⟨0, 2, 5, 0⟩ (by decide) (by decide)).2⟩

/-- C3 counterexample: an engine whose single record under key 0 is dead
satisfies the non-empty-list invariant before `notify`, yet `notify` erases
the dead record and leaves key 0 in the map with an empty list — the key
entry is not removed by `notify`. -/
theorem notify_keeps_emptied_key :
    noEmptyKeysB (⟨[(0, [⟨0, 1, 5, 0⟩])], 1⟩ : EngineState) = true ∧
    (notify (fun _ => false) (⟨[(0, [⟨0, 1, 5, 0⟩])], 1⟩ : EngineState)
        0 (7 : Nat)).1 =
      (⟨[(0, [])], 1⟩ : EngineState) ∧
    noEmptyKeysB (notify (fun _ => false)
        (⟨[(0, [⟨0, 1, 5, 0⟩])], 1⟩ : EngineState) 0 (7 : Nat)).1 = false :=
  ⟨rfl, rfl, rfl⟩

/-- C3 amended: after `unsubscribe` every key present in the map has a
non-empty record list — a key whose list becomes empty is removed; `notify`'s
removal of dead records, by contrast, keeps the key entry even when its list
becomes empty (see the counterexample), so the invariant is guaranteed only
across `unsubscribe`. -/
theorem unsubscribe_preserves_no_empty_keys (st st2 : EngineState) (key h : Nat)
    (hinv : noEmptyKeysB st = true) (hok : unsubscribe st key h = some st2) :
    noEmptyKeysB st2 = true := by
  cases hf : findList st.map key with
  | none =>
    simp only [unsubscribe, hf] at hok
    obtain rfl := Option.some.inj hok
    exact hinv
  | some l =>
    cases he : eraseHandle l h with
    | none =>
      simp only [unsubscribe, hf, he] at hok
      cases hok
    | some l2 =>
      simp only [unsubscribe, hf, he] at hok
      obtain rfl := Option.some.inj hok
      simp only [noEmptyKeysB, List.all_eq_true]
      intro kv hkv
      by_cases hempty : l2.isEmpty
      · rw [if_pos hempty] at hkv
        exact (List.all_eq_true.mp hinv) kv (mem_mapErase st.map key kv hkv)
      · rw [if_neg hempty] at hkv
        rcases mem_mapUpdate st.map key l2 kv hkv with h2 | h2
        · rw [h2]
          simpa using hempty
        · exact (List.all_eq_true.mp hinv) kv h2

/-- Witness for the amended C3: unsubscribing the only record under key 0
removes the key entry, and the invariant still holds. -/
theorem unsubscribe_preserves_no_empty_keys_witness :
    noEmptyKeysB (⟨[(0, [⟨0, 1, 5, 0⟩])], 1⟩ : EngineState) = true ∧
    unsubscribe (⟨[(0, [⟨0, 1, 5, 0⟩])], 1⟩ : EngineState) 0 0 =
      some (⟨[], 1⟩ : EngineState) ∧
    noEmptyKeysB (⟨[], 1⟩ : EngineState) = true :=
  ⟨by decide, by decide,
   unsubscribe_preserves_no_empty_keys ⟨[(0, [⟨0, 1, 5, 0⟩])], 1⟩ ⟨[], 1⟩ 0 0
     (by decide) (by decide)⟩

/-- C6 counterexample: with two records under key 0, unsubscribing handle 0
twice is not a harmless no-op: the second call reaches
`std::list::erase` with an iterator that no longer addresses a node —
undefined behavior, modelled as `none` — rather than leaving the engine
unchanged. -/
theorem double_unsubscribe_stale_iterator :
    unsubscribe (⟨[(0, [⟨0, 1, 5, 0⟩, ⟨0, 2, 6, 1⟩])], 2⟩ : EngineState) 0 0 =
      some (⟨[(0, [⟨0, 2, 6, 1⟩])], 2⟩ : EngineState) ∧
    unsubscribe (⟨[(0, [⟨0, 2, 6, 1⟩])], 2⟩ : EngineState) 0 0 = none :=
  ⟨by decide, by decide⟩

/-- C6 amended: the second `unsubscribe` with the same handle is a defined
no-op exactly when the first call removed the key entry (the handle's list
became empty): on a key absent from the map, `unsubscribe` returns the state
unchanged.  When other records remain under the key, the second call erases
through a stale iterator — undefined behavior the engine does not guard
against; double-unsubscribe tolerance rests on the subscriber-side guard. -/
theorem unsubscribe_absent_key_noop (st : EngineState) (key h : Nat)
    (hmiss : findList st.map key = none) :
    unsubscribe st key h = some st := by
  unfold unsubscribe
  rw [hmiss]

/-- Witness for the amended C6: key 0 is absent (only key 1 is present), so
`unsubscribe` on key 0 returns the engine unchanged. -/
theorem unsubscribe_absent_key_noop_witness :
    findList (⟨[(1, [⟨0, 2, 6, 1⟩])], 2⟩ : EngineState).map 0 = none ∧
    unsubscribe (⟨[(1, [⟨0, 2, 6, 1⟩])], 2⟩ : EngineState) 0 0 =
      some (⟨[(1, [⟨0, 2, 6, 1⟩])], 2⟩ : EngineState) :=
  ⟨by decide,
   unsubscribe_absent_key_noop ⟨[(1, [⟨0, 2, 6, 1⟩])], 2⟩ 0 0 (by decide)⟩

/-- C7.  Unsubscribe correctness: for a handle addressing a record under
`key` (keys and per-key handles are distinct in every reachable state),
`unsubscribe` succeeds, erases exactly that record, removes the key entry
when its list becomes empty, and leaves the entries of all other keys — and
the remaining records under `key`, in order — unchanged. -/
theorem unsubscribe_correct (st : EngineState) (key h : Nat)
    (hkeys : (st.map.map Prod.fst).Nodup)
    (hhandles : ((lookupList st key).map Record.handle).Nodup)
    (hmem : h ∈ (lookupList st key).map Record.handle) :
    ∃ st2, unsubscribe st key h = some st2 ∧
      st2.nextHandle = st.nextHandle ∧
      (∀ k2, k2 ≠ key → findList st2.map k2 = findList st.map k2) ∧
      findList st2.map key =
        (if ((lookupList st key).filter (fun r => r.handle ≠ h)).isEmpty then none
         else some ((lookupList st key).filter (fun r => r.handle ≠ h))) ∧
      size st2 key + 1 = size st key := by
  have hne : lookupList st key ≠ [] := by
    intro hnil
    rw [hnil] at hmem
    simp at hmem
  have hf := findList_eq_some_of_ne_nil st key hne
  have herase := eraseHandle_nodup (lookupList st key) h hhandles hmem
  have hlen := length_filter_ne_handle (lookupList st key) h hhandles hmem
  have hun : unsubscribe st key h =
      some ⟨if ((lookupList st key).filter (fun r => r.handle ≠ h)).isEmpty
              then mapErase st.map key
              else mapUpdate st.map key
                ((lookupList st key).filter (fun r => r.handle ≠ h)),
            st.nextHandle⟩ := by
    simp only [unsubscribe, hf, herase]
  refine ⟨_, hun, rfl, ?_, ?_, ?_⟩
  · intro k2 hk2
    by_cases hempty : ((lookupList st key).filter (fun r => r.handle ≠ h)).isEmpty
    · simp only [hempty, if_true, ite_true]
      exact findList_mapErase_ne st.map key k2 hk2
    · simp only [hempty, if_false, ite_false]
      exact findList_mapUpdate_ne st.map key k2 _ hk2
  · by_cases hempty : ((lookupList st key).filter (fun r => r.handle ≠ h)).isEmpty
    · simp only [hempty, if_true, ite_true]
      exact findList_mapErase_self st.map key hkeys
    · simp only [hempty, if_false, ite_false]
      exact findList_mapUpdate_self st.map key _ (by simp [hf])
  · by_cases hempty : ((lookupList st key).filter (fun r => r.handle ≠ h)).isEmpty
    · have h0 : ((lookupList st key).filter (fun r => r.handle ≠ h)).length = 0 := by
        rw [List.isEmpty_iff] at hempty
        rw [hempty]
        rfl
      have hsz : size (⟨mapErase st.map key, st.nextHandle⟩ : EngineState) key = 0 := by
        simp [size, lookupList, findList_mapErase_self st.map key hkeys]
      rw [if_pos hempty, hsz]
      show 0 + 1 = (lookupList st key).length
      rw [← hlen, h0]
    · have hsz : size (⟨mapUpdate st.map key
          ((lookupList st key).filter (fun r => r.handle ≠ h)),
          st.nextHandle⟩ : EngineState) key =
          ((lookupList st key).filter (fun r => r.handle ≠ h)).length := by
        simp [size, lookupList,
          findList_mapUpdate_self st.map key _ (by simp [hf])]
      rw [if_neg hempty, hsz]
      exact hlen

/-- Witness for C7: erasing handle 0, the first of two records under key 0,
leaves exactly the second record. -/
theorem unsubscribe_correct_witness :
    (((⟨[(0, [⟨0, 1, 5, 0⟩, ⟨0, 2, 6, 1⟩])], 2⟩ : EngineState)).map.map
        Prod.fst).Nodup ∧
    ((lookupList (⟨[(0, [⟨0, 1, 5, 0⟩, ⟨0, 2, 6, 1⟩])], 2⟩ : EngineState) 0).map
        Record.handle).Nodup ∧
    0 ∈ (lookupList (⟨[(0, [⟨0, 1, 5, 0⟩, ⟨0, 2, 6, 1⟩])], 2⟩ : EngineState) 0).map
        Record.handle ∧
    (∃ st2, unsubscribe (⟨[(0, [⟨0, 1, 5, 0⟩, ⟨0, 2, 6, 1⟩])], 2⟩ : EngineState)
        0 0 = some st2 ∧
      st2.nextHandle =
        (⟨[(0, [⟨0, 1, 5, 0⟩, ⟨0, 2, 6, 1⟩])], 2⟩ : EngineState).nextHandle ∧
      (∀ k2, k2 ≠ 0 → findList st2.map k2 =
        findList (⟨[(0, [⟨0, 1, 5, 0⟩, ⟨0, 2, 6, 1⟩])], 2⟩ : EngineState).map k2) ∧
      findList st2.map 0 =
        (if ((lookupList (⟨[(0, [⟨0, 1, 5, 0⟩, ⟨0, 2, 6, 1⟩])], 2⟩ : EngineState)
              0).filter (fun r => r.handle ≠ 0)).isEmpty then none
         else some ((lookupList
              (⟨[(0, [⟨0, 1, 5, 0⟩, ⟨0, 2, 6, 1⟩])], 2⟩ : EngineState)
              0).filter (fun r => r.handle ≠ 0))) ∧
      size st2 0 + 1 =
        size (⟨[(0, [⟨0, 1, 5, 0⟩, ⟨0, 2, 6, 1⟩])], 2⟩ : EngineState) 0) :=
  ⟨by decide, by decide, by decide,
   unsubscribe_correct ⟨[(0, [⟨0, 1, 5, 0⟩, ⟨0, 2, 6, 1⟩])], 2⟩ 0 0
     (by decide) (by decide) (by decide)⟩

/-- C9.  Creator helper behavior: `SubscriberCreator::create<key, tid>(f)`
subscribes a fresh subscriber in the manager's memoized engine under `key`
with `set_id = 0` on lane `tid`, returns the handle of the new record, and
installs a callback that invokes `f` with the payload when the delivered
event key equals `key` and trips its assertion (invoking nothing) on any
other key; `getEngine` is memoized, so a repeated lookup returns the same
engine. -/
theorem creator_create_spec {σ α : Type} (key tid sub sig : Nat) (f : σ → α → σ)
    (m : Manager) :
    findList (SubscriberCreator.create key tid f m sig sub).2.1.map key =
      some (lookupList (getEngine m sig).1 key ++
        [⟨tid, 0, sub, (getEngine m sig).1.nextHandle⟩]) ∧
    (SubscriberCreator.create key tid f m sig sub).2.2.1 =
      (getEngine m sig).1.nextHandle ∧
    (∀ setId obj args,
      (SubscriberCreator.create key tid f m sig sub).1 setId obj key args =
        some (f obj args)) ∧
    (∀ setId obj args,
      (SubscriberCreator.create key tid f m sig sub).1 setId obj (key + 1) args =
        none) ∧
    getEngine (getEngine m sig).2 sig = ((getEngine m sig).1, (getEngine m sig).2) := by
  refine ⟨?_, rfl, ?_, ?_, ?_⟩
  · exact findList_mapInsert_self (getEngine m sig).1.map key _
  · intro setId obj args
    simp [SubscriberCreator.create]
  · intro setId obj args
    simp [SubscriberCreator.create, Nat.succ_ne_self]
  · cases he : findEngine m.engines sig with
    | some e => simp [getEngine, he]
    | none =>
      simp [getEngine, he, findEngine_append_self m.engines sig emptyEngine he]

end Iroha
